import Mathlib

/-!
Verification development for the media-transcoding supervisor
(`Encoding-Pipeline`).  Rust sources are shallowly embedded as executable
Lean definitions: timestamps become abstract `Nat` ticks, the external
key/value store becomes an explicit `QueueState`, and subprocess adapters
are modelled on their pure argument/selection logic.
-/

namespace EncodingPipeline

/-! ## Job model (src/queue/job.rs) -/

/-- Status of an encoding job (`JobStatus` in src/queue/job.rs). -/
inductive JobStatus where
  | pending
  | inProgress
  | completed
  | failed
  | deadLetter
  deriving DecidableEq, Repr

/-- An encoding job (`EncodeJob` in src/queue/job.rs).  `DateTime<Utc>`
timestamps are abstract `Nat` ticks supplied explicitly by callers in place
of `Utc::now()`.  `progress` is an `f32` percentage in the source; the
operations under study only ever clear it or set it to a constant, so it is
carried as `Option Nat`.  `result_metadata` is omitted: none of the
modelled operations read it. -/
structure EncodeJob where
  id : String
  inputPath : String
  outputPath : String
  profileName : String
  status : JobStatus
  attemptCount : Nat
  createdAt : Nat
  updatedAt : Nat
  startedAt : Option Nat
  completedAt : Option Nat
  errorMessage : Option String
  progress : Option Nat
  deriving DecidableEq, Repr

/-- Model of `EncodeJob::start`: mark the job in progress. -/
def EncodeJob.start (j : EncodeJob) (now : Nat) : EncodeJob :=
  { j with status := JobStatus.inProgress, startedAt := some now,
           updatedAt := now, attemptCount := j.attemptCount + 1 }

/-- Model of `EncodeJob::fail`: mark the job as failed with an error message. -/
def EncodeJob.fail (j : EncodeJob) (error : String) (now : Nat) : EncodeJob :=
  { j with status := JobStatus.failed, updatedAt := now,
           errorMessage := some error }

/-- Model of `EncodeJob::retry`: reset the job to pending, clearing error and
progress. -/
def EncodeJob.retry (j : EncodeJob) (now : Nat) : EncodeJob :=
  { j with status := JobStatus.pending, updatedAt := now,
           errorMessage := none, progress := none }

/-- Model of `EncodeJob::dead_letter`: mark the job as dead-lettered with a reason. -/
def EncodeJob.deadLetter (j : EncodeJob) (reason : String) (now : Nat) : EncodeJob :=
  { j with status := JobStatus.deadLetter, updatedAt := now,
           errorMessage := some reason }

/-! ## Queue state and Redis operations (src/queue/redis.rs)

The Redis collections are embedded explicitly: `encode:queue` and
`encode:dead_letter` are lists (head = left end), `encode:processing` is a
set (modelled as a duplicate-free insertion list), and the per-job records
`encode:job:<id>` form an association list keyed by job id. -/

/-- Error kinds surfaced by queue operations (`QueueError` in
src/error.rs); only the kind the claims consult is carried. -/
inductive QueueError where
  | jobNotFound (jobId : String)
  deriving DecidableEq, Repr

/-- The observable state of the Redis store used by `QueueManager`. -/
structure QueueState where
  queue : List String
  processing : List String
  deadLetter : List String
  jobs : List (String × EncodeJob)
  deriving DecidableEq, Repr

/-- Redis `RPUSH`: append to the right end of a list. -/
def rpush (l : List String) (x : String) : List String := l ++ [x]

/-- Redis `LPUSH`: prepend to the left end of a list. -/
def lpush (x : String) (l : List String) : List String := x :: l

/-- Redis `SADD`: insert into a set. -/
def sadd (l : List String) (x : String) : List String :=
  if x ∈ l then l else l ++ [x]

/-- Redis `SREM`: remove from a set. -/
def srem (l : List String) (x : String) : List String :=
  l.filter (fun y => y ≠ x)

/-- Redis `LREM key 1 x`: remove the first occurrence of `x`. -/
def lremOne (l : List String) (x : String) : List String := l.erase x

/-- Model of `SET` on a job record: overwrite the record under key `k`. -/
def jobsSet (jobs : List (String × EncodeJob)) (k : String) (j : EncodeJob) :
    List (String × EncodeJob) :=
  match jobs with
  | [] => [(k, j)]
  | (k0, j0) :: rest =>
      if k0 = k then (k, j) :: rest else (k0, j0) :: jobsSet rest k j

/-- Model of `GET` on a job record. -/
def jobsGet (jobs : List (String × EncodeJob)) (k : String) : Option EncodeJob :=
  (jobs.find? (fun p => p.1 = k)).map (fun p => p.2)

/-- Model of `QueueManager::get_job`. -/
def getJob (s : QueueState) (jobId : String) : Option EncodeJob :=
  jobsGet s.jobs jobId

/-- Model of `QueueManager::enqueue`: write the job record, then append the id to
the pending list. -/
def enqueue (j : EncodeJob) (s : QueueState) : QueueState :=
  { s with jobs := jobsSet s.jobs j.id j, queue := rpush s.queue j.id }

/-- Model of `QueueManager::dequeue`: pop the head of the pending list, add it to
the processing set, and read back the job record. -/
def dequeue (s : QueueState) : Option EncodeJob × QueueState :=
  match s.queue with
  | [] => (none, s)
  | jobId :: rest =>
      let s1 := { s with queue := rest, processing := sadd s.processing jobId }
      (getJob s1 jobId, s1)

/-- Model of `QueueManager::update_job`: overwrite the record; no list change. -/
def updateJob (j : EncodeJob) (s : QueueState) : QueueState :=
  { s with jobs := jobsSet s.jobs j.id j }

/-- Model of `QueueManager::retry_job`: write the record, remove the id from the
processing set, push it back at the front of the pending list. -/
def retryJobOp (j : EncodeJob) (s : QueueState) : QueueState :=
  let s1 := updateJob j s
  { s1 with processing := srem s1.processing j.id, queue := lpush j.id s1.queue }

/-- Model of `QueueManager::dead_letter`: write the record, remove the id from the
processing set, append it to the dead-letter list. -/
def deadLetterOp (j : EncodeJob) (s : QueueState) : QueueState :=
  let s1 := updateJob j s
  { s1 with processing := srem s1.processing j.id,
            deadLetter := rpush s1.deadLetter j.id }

/-- Model of `QueueManager::retry_dead_letter`: remove one occurrence of the id
from the dead-letter list (this happens before the record is consulted);
if the record exists, reset it to pending and append the id to the pending
list, else fail with `JobNotFound`.  The returned state reflects the Redis
mutations performed on either path. -/
def retryDeadLetter (jobId : String) (now : Nat) (s : QueueState) :
    QueueState × Except QueueError Unit :=
  let s1 := { s with deadLetter := lremOne s.deadLetter jobId }
  match getJob s1 jobId with
  | some j =>
      let j1 := j.retry now
      let s2 := updateJob j1 s1
      ({ s2 with queue := rpush s2.queue jobId }, Except.ok ())
  | none => (s1, Except.error (QueueError.jobNotFound jobId))

/-- Model of `QueueManager::list_queue`: resolve pending ids to records, skipping
absent records. -/
def listQueue (s : QueueState) : List EncodeJob :=
  s.queue.filterMap (getJob s)

/-- Model of `QueueManager::list_dead_letter`: resolve dead-letter ids to records,
skipping absent records. -/
def listDeadLetter (s : QueueState) : List EncodeJob :=
  s.deadLetter.filterMap (getJob s)

/-! ## Dead-letter handler (src/queue/dead_letter.rs) -/

/-- Model of `FailureAction` returned by `DeadLetterHandler::handle_failure`. -/
inductive FailureAction where
  | retrying (attempt maxAttempts : Nat)
  | deadLettered (reason : String)
  deriving DecidableEq, Repr

/-- Model of `DeadLetterHandler::handle_failure`: mark the job failed; if
`attempt_count < max_attempts` reset it to pending and run the queue
retry operation, else dead-letter it with the exhaustion reason and run
the queue dead-letter operation.  Besides the new queue state it returns
the source's `FailureAction` and the final job record. -/
def handleFailure (maxAttempts : Nat) (job : EncodeJob) (error : String)
    (now : Nat) (s : QueueState) : QueueState × FailureAction × EncodeJob :=
  let j1 := job.fail error now
  if j1.attemptCount < maxAttempts then
    let j2 := j1.retry now
    (retryJobOp j2 s, FailureAction.retrying j2.attemptCount maxAttempts, j2)
  else
    let reason :=
      "Exhausted " ++ toString maxAttempts ++ " attempts. Last error: " ++ error
    let j2 := j1.deadLetter reason now
    (deadLetterOp j2 s, FailureAction.deadLettered error, j2)

/-! ## String helpers

Rust's `str::to_lowercase` and `str::contains` are modelled at the ASCII
level over the character list of a `String` (the values compared in the
sources — codec names, language tags, side-data type strings — are
ASCII). -/

/-- ASCII lower-casing of one character. -/
def charLower (c : Char) : Char :=
  if 'A' ≤ c ∧ c ≤ 'Z' then Char.ofNat (c.toNat + 32) else c

/-- Model of `str::to_lowercase` (ASCII fragment). -/
def strLower (s : String) : String := String.mk (s.data.map charLower)

/-- Whether `needle` occurs as a contiguous run inside the second list. -/
def isInfixB (needle : List Char) : List Char → Bool
  | [] => needle.isEmpty
  | c :: rest => needle.isPrefixOf (c :: rest) || isInfixB needle rest

/-- Model of `str::contains` on strings. -/
def strContainsB (haystack needle : String) : Bool :=
  isInfixB needle.data haystack.data

/-! ## Probe stream models (src/media/probe.rs) -/

/-- An audio stream as produced by the probe adapter (`AudioStream` in
src/media/probe.rs).  Fields never consulted by the audio decision engine
(`channel_layout`, `sample_rate`, `bitrate`) are omitted. -/
structure AudioStream where
  index : Nat
  codec : String
  channels : Nat
  language : Option String
  title : Option String
  isDefault : Bool
  isCommentary : Bool
  isVisualImpaired : Bool
  deriving DecidableEq, Repr

/-- A subtitle stream (`SubtitleStream` in src/media/probe.rs). -/
structure SubtitleStream where
  index : Nat
  codec : String
  language : Option String
  title : Option String
  isDefault : Bool
  isForced : Bool
  isHearingImpaired : Bool
  isImageBased : Bool
  deriving DecidableEq, Repr

/-- Model of `is_lossless_codec` (src/media/probe.rs): membership of the
lower-cased codec name in the fixed lossless set. -/
def isLosslessCodec (codec : String) : Bool :=
  let c := strLower codec
  c = "truehd" || c = "mlp" || c = "dts-hd ma" || c = "dtshd" || c = "flac" ||
  c = "alac" || c = "pcm_s16le" || c = "pcm_s24le" || c = "pcm_s32le"

/-! ## Audio configuration (src/config/model.rs) -/

/-- Model of `TrackFlags` match criteria: each tri-state field, when set, must equal
the stream flag. -/
structure TrackFlags where
  commentary : Option Bool
  visualImpaired : Option Bool
  default : Option Bool
  deriving DecidableEq, Repr

/-- Model of `AudioMatchCriteria`. -/
structure AudioMatchCriteria where
  language : Option String
  languages : Option (List String)
  codec : Option String
  codecs : Option (List String)
  channelsMin : Option Nat
  channelsMax : Option Nat
  flags : Option TrackFlags
  titleContains : Option String
  index : Option Nat
  deriving DecidableEq, Repr

/-- Model of `AudioAction` (config-level action tag). -/
inductive AudioAction where
  | passthrough
  | transcode
  | passthroughOrTranscode
  | passthroughLossless
  | exclude
  deriving DecidableEq, Repr

/-- Model of `TranscodeSettings`. -/
structure TranscodeSettings where
  codec : String
  bitrate : String
  losslessBitrate : Option String
  deriving DecidableEq, Repr

/-- Model of `DownmixMode`. -/
inductive DownmixMode where
  | none
  | replace
  | addStereo
  deriving DecidableEq, Repr

/-- Model of `DownmixSettings`. -/
structure DownmixSettings where
  mode : DownmixMode
  codec : String
  bitrate : String
  deriving DecidableEq, Repr

/-- Model of `AudioRule`. -/
structure AudioRule where
  matchCriteria : AudioMatchCriteria
  action : AudioAction
  passthroughCodecs : List String
  transcode : Option TranscodeSettings
  downmix : Option DownmixSettings
  deriving DecidableEq, Repr

/-- Model of `TrackFallback`.  The source variant `Include` is spelled
`includeTracks` because `include` is a Lean keyword. -/
inductive TrackFallback where
  | exclude
  | includeTracks
  | passthrough
  deriving DecidableEq, Repr

/-- Model of `AudioConfig`.  `output_order` and `language_priority` are omitted:
`process_audio_streams` never consults them. -/
structure AudioConfig where
  rules : List AudioRule
  fallback : TrackFallback
  maxTracksPerLanguage : Option Nat
  deriving DecidableEq, Repr

/-! ## Audio decision engine (src/media/audio.rs) -/

/-- Model of `AudioTrackAction`: the per-track decision variants. -/
inductive AudioTrackAction where
  | passthrough
  | transcode (codec bitrate : String)
  | exclude
  | passthroughWithDownmix (downmixCodec downmixBitrate : String)
  | transcodeWithDownmix (codec bitrate downmixCodec downmixBitrate : String)
  deriving DecidableEq, Repr

/-- Whether an action is the `exclude` variant. -/
def AudioTrackAction.isExclude : AudioTrackAction → Bool
  | AudioTrackAction.exclude => true
  | _ => false

/-- Model of `AudioDecision`. -/
structure AudioDecision where
  stream : AudioStream
  action : AudioTrackAction
  matchedRule : Option Nat
  deriving DecidableEq, Repr

/-- Model of `matches_flags`. -/
def matchesFlags (stream : AudioStream) (flags : TrackFlags) : Bool :=
  (match flags.commentary with
   | some commentary => stream.isCommentary = commentary
   | none => true) &&
  (match flags.visualImpaired with
   | some visualImpaired => stream.isVisualImpaired = visualImpaired
   | none => true) &&
  (match flags.default with
   | some dflt => stream.isDefault = dflt
   | none => true)

/-- Model of `matches_criteria`: every present criterion must match. -/
def matchesCriteria (stream : AudioStream) (criteria : AudioMatchCriteria) : Bool :=
  (match criteria.language with
   | some lang => stream.language = some lang
   | none => true) &&
  (match criteria.languages with
   | some languages =>
       match stream.language with
       | some streamLang => languages.contains streamLang
       | none => false
   | none => true) &&
  (match criteria.codec with
   | some codec => strLower stream.codec = strLower codec
   | none => true) &&
  (match criteria.codecs with
   | some codecs => codecs.any (fun c => strLower c = strLower stream.codec)
   | none => true) &&
  (match criteria.channelsMin with
   | some min => decide (min ≤ stream.channels)
   | none => true) &&
  (match criteria.channelsMax with
   | some max => decide (stream.channels ≤ max)
   | none => true) &&
  (match criteria.flags with
   | some flags => matchesFlags stream flags
   | none => true) &&
  (match criteria.titleContains with
   | some contains =>
       match stream.title with
       | some t => strContainsB (strLower t) (strLower contains)
       | none => false
   | none => true) &&
  (match criteria.index with
   | some idx => stream.index = idx
   | none => true)

/-- Model of `match_stream_to_rule`: first rule (with its index) whose criteria
match. -/
def matchStreamToRule (stream : AudioStream) (config : AudioConfig) :
    Option (Nat × AudioRule) :=
  config.rules.enum.find? (fun p => matchesCriteria stream p.2.matchCriteria)

/-- Model of `determine_base_action`: translate the matched rule's action tag into
a base decision, before the downmix overlay. -/
def determineBaseAction (stream : AudioStream) (rule : AudioRule) : AudioTrackAction :=
  match rule.action with
  | AudioAction.passthrough => AudioTrackAction.passthrough
  | AudioAction.exclude => AudioTrackAction.exclude
  | AudioAction.transcode =>
      match rule.transcode with
      | some ts =>
          let bitrate :=
            if isLosslessCodec stream.codec then ts.losslessBitrate.getD ts.bitrate
            else ts.bitrate
          AudioTrackAction.transcode ts.codec bitrate
      | none => AudioTrackAction.passthrough
  | AudioAction.passthroughOrTranscode =>
      if rule.passthroughCodecs.any (fun c => strLower c = strLower stream.codec) then
        AudioTrackAction.passthrough
      else
        match rule.transcode with
        | some ts =>
            let bitrate :=
              if isLosslessCodec stream.codec then ts.losslessBitrate.getD ts.bitrate
              else ts.bitrate
            AudioTrackAction.transcode ts.codec bitrate
        | none => AudioTrackAction.passthrough
  | AudioAction.passthroughLossless =>
      if isLosslessCodec stream.codec then AudioTrackAction.passthrough
      else
        match rule.transcode with
        | some ts => AudioTrackAction.transcode ts.codec ts.bitrate
        | none => AudioTrackAction.passthrough

/-- Model of `create_decision`: base action plus the downmix overlay (applied when
the rule's downmix mode is not `none` and the stream has more than two
channels; `exclude` is left untouched). -/
def createDecision (stream : AudioStream) (rule : AudioRule) (ruleIdx : Nat) :
    AudioDecision :=
  let baseAction := determineBaseAction stream rule
  let hasDownmix :=
    match rule.downmix with
    | some d => !(d.mode = DownmixMode.none)
    | none => false
  let action :=
    if hasDownmix && decide (2 < stream.channels) then
      match rule.downmix with
      | some d =>
          match baseAction with
          | AudioTrackAction.passthrough =>
              AudioTrackAction.passthroughWithDownmix d.codec d.bitrate
          | AudioTrackAction.transcode codec bitrate =>
              AudioTrackAction.transcodeWithDownmix codec bitrate d.codec d.bitrate
          | other => other
      | none => baseAction
    else baseAction
  { stream := stream, action := action, matchedRule := some ruleIdx }

/-- The fallback decision for a stream matched by no rule. -/
def fallbackDecision (stream : AudioStream) (config : AudioConfig) : AudioDecision :=
  let action :=
    match config.fallback with
    | TrackFallback.exclude => AudioTrackAction.exclude
    | TrackFallback.includeTracks => AudioTrackAction.passthrough
    | TrackFallback.passthrough => AudioTrackAction.passthrough
  { stream := stream, action := action, matchedRule := none }

/-- The loop body of `process_audio_streams`, threading the per-language
`track_counts` map (a total function defaulting to 0, mirroring
`entry(...).or_insert(0)`).  When a rule matches, the cap is consulted and
the counter bumped exactly as in the source: the counter is incremented
whenever the counter is below the cap, before the decision is built and
regardless of the rule's action. -/
def processAudioGo (config : AudioConfig) (counts : String → Nat) :
    List AudioStream → List AudioDecision
  | [] => []
  | stream :: rest =>
      match matchStreamToRule stream config with
      | some (ruleIdx, rule) =>
          (match config.maxTracksPerLanguage with
           | some maxT =>
               match stream.language with
               | some lang =>
                   if maxT ≤ counts lang then
                     { stream := stream, action := AudioTrackAction.exclude,
                       matchedRule := some ruleIdx } :: processAudioGo config counts rest
                   else
                     createDecision stream rule ruleIdx ::
                       processAudioGo config
                         (fun l => if l = lang then counts lang + 1 else counts l) rest
               | none =>
                   createDecision stream rule ruleIdx :: processAudioGo config counts rest
           | none =>
               createDecision stream rule ruleIdx :: processAudioGo config counts rest)
      | none => fallbackDecision stream config :: processAudioGo config counts rest

/-- Model of `process_audio_streams` (src/media/audio.rs). -/
def processAudioStreams (streams : List AudioStream) (config : AudioConfig) :
    List AudioDecision :=
  processAudioGo config (fun _ => 0) streams

/-! ## Subtitle configuration and decision engine (src/config/model.rs,
src/media/subtitle.rs) -/

/-- Model of `ImageSubsMode`. -/
inductive ImageSubsMode where
  | copy
  | burnIn
  | exclude
  deriving DecidableEq, Repr

/-- Model of `SubtitleTrackConfig`. -/
structure SubtitleTrackConfig where
  language : String
  includeForced : Bool
  includeFull : Bool
  includeSdh : Bool
  burnIn : Bool
  deriving DecidableEq, Repr

/-- Model of `SubtitleConfig`.  `default_track` is omitted: the decision engine
never consults it. -/
structure SubtitleConfig where
  tracks : List SubtitleTrackConfig
  imageSubs : ImageSubsMode
  fallback : TrackFallback
  deriving DecidableEq, Repr

/-- Model of `SubtitleTrackAction`. -/
inductive SubtitleTrackAction where
  | copy
  | burnIn
  | exclude
  deriving DecidableEq, Repr

/-- Model of `SubtitleDecision`. -/
structure SubtitleDecision where
  stream : SubtitleStream
  action : SubtitleTrackAction
  deriving DecidableEq, Repr

/-- Model of `should_include_track`: forced streams are governed by
`include_forced` alone; only non-forced streams consult `include_sdh`;
only streams that are neither consult `include_full`. -/
def shouldIncludeTrack (stream : SubtitleStream) (tc : SubtitleTrackConfig) : Bool :=
  if stream.isForced then tc.includeForced
  else if stream.isHearingImpaired then tc.includeSdh
  else tc.includeFull

/-- Resolution of an image-based stream through the global `image_subs`
mode. -/
def imageSubsAction (mode : ImageSubsMode) : SubtitleTrackAction :=
  match mode with
  | ImageSubsMode.copy => SubtitleTrackAction.copy
  | ImageSubsMode.burnIn => SubtitleTrackAction.burnIn
  | ImageSubsMode.exclude => SubtitleTrackAction.exclude

/-- Model of `determine_subtitle_action`. -/
def determineSubtitleAction (stream : SubtitleStream) (config : SubtitleConfig) :
    SubtitleDecision :=
  let trackConfig :=
    stream.language.bind
      (fun lang => config.tracks.find? (fun t => t.language = lang))
  let action :=
    match trackConfig with
    | some tc =>
        if !(shouldIncludeTrack stream tc) then SubtitleTrackAction.exclude
        else if tc.burnIn && stream.isImageBased then SubtitleTrackAction.burnIn
        else if stream.isImageBased then imageSubsAction config.imageSubs
        else SubtitleTrackAction.copy
    | none =>
        match config.fallback with
        | TrackFallback.includeTracks | TrackFallback.passthrough =>
            if stream.isImageBased then imageSubsAction config.imageSubs
            else SubtitleTrackAction.copy
        | TrackFallback.exclude => SubtitleTrackAction.exclude
  { stream := stream, action := action }

/-- Model of `process_subtitle_streams`. -/
def processSubtitleStreams (streams : List SubtitleStream) (config : SubtitleConfig) :
    List SubtitleDecision :=
  streams.map (fun s => determineSubtitleAction s config)

/-! ## Worker subtitle pipeline (src/encoder/ffmpeg.rs,
src/encoder/worker.rs, src/encoder/mkvmerge.rs) -/

/-- Model of `ExtractedSubtitle` (src/encoder/ffmpeg.rs). -/
structure ExtractedSubtitle where
  path : String
  streamIndex : Nat
  language : Option String
  isForced : Bool
  isDefault : Bool
  shouldBurnIn : Bool
  deriving DecidableEq, Repr

/-- Model of `extract_subtitles` (src/encoder/ffmpeg.rs), as the pure selection it
performs: every non-exclude decision yields a sidecar entry whose
`should_burn_in` flag records whether the decision was `burn_in`.  Each
per-stream ffmpeg invocation is assumed to succeed; a failed extraction
would only drop its entry (it is logged and skipped in the source). -/
def extractSubtitles (decisions : List SubtitleDecision) : List ExtractedSubtitle :=
  decisions.filterMap (fun d =>
    match d.action with
    | SubtitleTrackAction.exclude => none
    | a =>
        let ext := if d.stream.isImageBased then "sup" else "srt"
        some { path := "sub_" ++ toString d.stream.index ++ "_" ++
                 (d.stream.language.getD "und") ++ "." ++ ext,
               streamIndex := d.stream.index,
               language := d.stream.language,
               isForced := d.stream.isForced,
               isDefault := d.stream.isDefault,
               shouldBurnIn := decide (a = SubtitleTrackAction.burnIn) })

/-- The worker's burn-in pick (src/encoder/worker.rs line 162): the first
extracted subtitle flagged for burn-in. -/
def burnInSub (extracted : List ExtractedSubtitle) : Option ExtractedSubtitle :=
  extracted.find? (fun s => s.shouldBurnIn)

/-- The subtitle inputs `mkvmerge::mux` receives (src/encoder/mkvmerge.rs
line 32): every extracted subtitle not flagged for burn-in, in order. -/
def muxSubtitleInputs (extracted : List ExtractedSubtitle) : List ExtractedSubtitle :=
  extracted.filter (fun s => !s.shouldBurnIn)

/-- Error kinds surfaced by the subprocess adapters (`EncoderError` in
src/error.rs); only the variant the claims consult is carried. -/
inductive EncoderError where
  | mkvmergeFailed (code : Int) (stderrTail : String)
  deriving DecidableEq, Repr

/-- The exit-status handling of `mkvmerge::mux` (src/encoder/mkvmerge.rs
lines 53-71): the subprocess result is reduced to its exit code (`none`
when no code is available, e.g. signal termination; exit codes of a
spawned process are non-negative on the target platform) and the tail of
stderr.  The source treats `code().unwrap_or(2) >= 2` as failure and
reports `MkvmergeFailed` with `code().unwrap_or(-1)`. -/
def muxExitOutcome (exitCode : Option Nat) (stderrTail : String) :
    Except EncoderError Unit :=
  if 2 ≤ exitCode.getD 2 then
    Except.error
      (EncoderError.mkvmergeFailed ((exitCode.map Int.ofNat).getD (-1)) stderrTail)
  else Except.ok ()

/-! ## HDR classification (src/media/probe.rs) -/

/-- The fields of one probed video stream's JSON consulted by
`detect_hdr_format`: the `color_transfer` tag, when present, and the
`side_data_type` strings of the `side_data_list` entries (entries without
a string `side_data_type` are skipped by the source and so do not
appear). -/
structure ProbedVideoJson where
  colorTransfer : Option String
  sideDataTypes : List String
  deriving DecidableEq, Repr

/-- Model of `detect_hdr_format`: the `?` on the transfer lookup makes a missing
`color_transfer` return `none` before side data is ever consulted. -/
def detectHdrFormat (stream : ProbedVideoJson) : Option String :=
  match stream.colorTransfer with
  | none => none
  | some transfer =>
      if transfer = "smpte2084" then some "HDR10"
      else if transfer = "arib-std-b67" then some "HLG"
      else if stream.sideDataTypes.any (fun t => strContainsB t "Dolby Vision") then
        some "Dolby Vision"
      else none

/-! ## Stability checker (src/watcher/stability.rs) -/

/-- Model of `TrackedFile`. -/
structure TrackedFile where
  lastSize : Nat
  stableSince : Option Nat
  profileName : String
  deriving DecidableEq, Repr

/-- The per-entry body of `StabilityChecker::check_all` for a file whose
stat succeeded with `currentSize`: returns the updated entry and whether
the path is pushed onto `ready_files`.  `Instant` arithmetic becomes `Nat`
ticks; `stable_since.elapsed()` is `now - stable_since`. -/
def checkOne (stabilityDuration now currentSize : Nat) (t : TrackedFile) :
    TrackedFile × Bool :=
  if currentSize = t.lastSize && decide (0 < currentSize) then
    let since := t.stableSince.getD now
    ({ t with stableSince := some since },
     decide (stabilityDuration ≤ now - since))
  else
    ({ t with lastSize := currentSize, stableSince := none }, false)

/-- One iteration of the `check_all` loop on a tracked entry: an entry
whose stat fails (`sizeOf p = none`) is retained unchanged (the loop
`continue`s); otherwise the entry is stepped through the stability
check. -/
def stepEntry (stabilityDuration now : Nat) (sizeOf : String → Option Nat)
    (e : String × TrackedFile) : String × TrackedFile × Bool :=
  match sizeOf e.1 with
  | none => (e.1, e.2, false)
  | some s => (e.1, checkOne stabilityDuration now s e.2)

/-- Model of `StabilityChecker::check_all` over the tracked map (an association
list keyed by path): every entry is stepped, then the ready paths are
emitted to the sink and removed from tracking. -/
def checkAll (stabilityDuration now : Nat) (sizeOf : String → Option Nat)
    (tracked : List (String × TrackedFile)) :
    List (String × TrackedFile) × List String :=
  let stepped := tracked.map (stepEntry stabilityDuration now sizeOf)
  (stepped.filterMap (fun e => if e.2.2 then none else some (e.1, e.2.1)),
   stepped.filterMap (fun e => if e.2.2 then some e.1 else none))

/-! ## The per-language cap as the specification words it

For comparison with `processAudioGo` (a refinement check): the
specification's counter discipline is "when a rule matches and produces a
non-exclude action, if a limit is set and the counter has reached the cap
for this language, override the decision to exclude; else increment and
keep it" — a matched rule whose action is `exclude` leaves the counter
untouched. -/

/-- The audio loop body following the specification's wording of the
per-language cap. -/
def processAudioSpecGo (config : AudioConfig) (counts : String → Nat) :
    List AudioStream → List AudioDecision
  | [] => []
  | stream :: rest =>
      match matchStreamToRule stream config with
      | some (ruleIdx, rule) =>
          let d := createDecision stream rule ruleIdx
          if d.action.isExclude then d :: processAudioSpecGo config counts rest
          else
            (match config.maxTracksPerLanguage, stream.language with
             | some maxT, some lang =>
                 if maxT ≤ counts lang then
                   { stream := stream, action := AudioTrackAction.exclude,
                     matchedRule := some ruleIdx } :: processAudioSpecGo config counts rest
                 else
                   d :: processAudioSpecGo config
                     (fun l => if l = lang then counts lang + 1 else counts l) rest
             | _, _ => d :: processAudioSpecGo config counts rest)
      | none => fallbackDecision stream config :: processAudioSpecGo config counts rest

/-- Model of `process_audio_streams` as the specification describes the cap. -/
def processAudioStreamsSpec (streams : List AudioStream) (config : AudioConfig) :
    List AudioDecision :=
  processAudioSpecGo config (fun _ => 0) streams

/-! ## Counter bookkeeping for the audio engine -/

/-- The per-language counter state after the loop body has consumed a list
of streams (mirrors the branching of `processAudioGo`). -/
def countsAfter (config : AudioConfig) (counts : String → Nat) :
    List AudioStream → (String → Nat)
  | [] => counts
  | stream :: rest =>
      match matchStreamToRule stream config, config.maxTracksPerLanguage,
            stream.language with
      | some _, some maxT, some lang =>
          if maxT ≤ counts lang then countsAfter config counts rest
          else
            countsAfter config
              (fun l => if l = lang then counts lang + 1 else counts l) rest
      | _, _, _ => countsAfter config counts rest

/-- Decisions among `ds` produced by a matched rule, carrying language `l`,
whose action is not `exclude`. -/
def countKeptMatched (l : String) (ds : List AudioDecision) : Nat :=
  (ds.filter (fun d =>
    d.matchedRule.isSome && decide (d.stream.language = some l) &&
      !d.action.isExclude)).length

/-- Decisions among `ds` carrying language `l` whose action is not
`exclude` (the count the claim about `max_tracks_per_language = 1`
speaks of). -/
def countNonExcludeLang (l : String) (ds : List AudioDecision) : Nat :=
  (ds.filter (fun d =>
    decide (d.stream.language = some l) && !d.action.isExclude)).length

/-! ## Helper lemmas -/

/-- Writing a job record and reading it back under the same key yields the
written job. -/
theorem jobsGet_jobsSet_same (jobs : List (String × EncodeJob)) (k : String)
    (j : EncodeJob) : jobsGet (jobsSet jobs k j) k = some j := by
  induction jobs with
  | nil => simp [jobsSet, jobsGet]
  | cons p rest ih =>
      obtain ⟨k0, j0⟩ := p
      by_cases h : k0 = k
      · simp [jobsSet, h, jobsGet]
      · simpa [jobsSet, h, jobsGet, List.find?] using ih

/-! ## Concrete sample values -/

/-- The empty queue state. -/
def emptyQueue : QueueState :=
  { queue := [], processing := [], deadLetter := [], jobs := [] }

/-- A freshly created pending job (as `EncodeJob::new` builds it, with the
identifier fixed). -/
def jobC1 : EncodeJob :=
  { id := "job-1", inputPath := "/in/x.mkv", outputPath := "/out/x.mkv",
    profileName := "default", status := JobStatus.pending, attemptCount := 0,
    createdAt := 0, updatedAt := 0, startedAt := none, completedAt := none,
    errorMessage := none, progress := none }

/-! ## C1 — enqueue/dequeue round trip -/

/-- C1, counterexample: `dequeue` returns the stored job record verbatim.
After `enqueue(jobC1)` on the empty queue, `dequeue` returns `jobC1`
itself, whose status is still `pending`, whose `started_at` is unset and
whose `attempt_count` is still 0 — not the `in_flight`/started/incremented
job the claim describes. -/
theorem dequeue_returns_job_unstarted :
    (dequeue (enqueue jobC1 emptyQueue)).1 = some jobC1 ∧
    jobC1.status = JobStatus.pending ∧
    jobC1.startedAt = none ∧
    jobC1.attemptCount = 0 ∧
    JobStatus.pending ≠ JobStatus.inProgress := by
  exact ⟨by decide, rfl, rfl, rfl, by decide⟩

/-- C1 (amended): `enqueue(j)` followed by `dequeue()` on an otherwise
empty queue returns `j` unchanged; the `in_flight`/`started_at`/
`attempt_count` update is performed afterwards by the worker calling
`EncodeJob::start` on the dequeued job, which also refreshes
`updated_at` and leaves every other field intact. -/
theorem enqueue_dequeue_then_start (j : EncodeJob) (s : QueueState) (now : Nat)
    (hempty : s.queue = []) :
    (dequeue (enqueue j s)).1 = some j ∧
    (j.start now).status = JobStatus.inProgress ∧
    (j.start now).startedAt = some now ∧
    (j.start now).attemptCount = j.attemptCount + 1 ∧
    (j.start now).updatedAt = now ∧
    (j.start now).id = j.id ∧
    (j.start now).inputPath = j.inputPath ∧
    (j.start now).outputPath = j.outputPath ∧
    (j.start now).profileName = j.profileName ∧
    (j.start now).createdAt = j.createdAt ∧
    (j.start now).completedAt = j.completedAt ∧
    (j.start now).errorMessage = j.errorMessage ∧
    (j.start now).progress = j.progress := by
  refine ⟨?_, rfl, rfl, rfl, rfl, rfl, rfl, rfl, rfl, rfl, rfl, rfl, rfl⟩
  simp [dequeue, enqueue, rpush, hempty, getJob, jobsGet_jobsSet_same]

/-- C1 (amended), witness at the sample job. -/
theorem enqueue_dequeue_then_start_witness :
    emptyQueue.queue = [] ∧
    (dequeue (enqueue jobC1 emptyQueue)).1 = some jobC1 ∧
    (jobC1.start 5).status = JobStatus.inProgress ∧
    (jobC1.start 5).startedAt = some 5 ∧
    (jobC1.start 5).attemptCount = jobC1.attemptCount + 1 := by
  have h := enqueue_dequeue_then_start jobC1 emptyQueue 5 rfl
  exact ⟨rfl, h.1, h.2.1, h.2.2.1, h.2.2.2.1⟩

/-! ## C7 — failure handling: retry or dead-letter -/

/-- C7: when a job's processing fails, `handle_failure` first marks it
failed; if `attempt_count < max_attempts` the job is reset to pending with
progress and error message cleared and the queue retry operation runs;
otherwise the job gets dead-letter status with error message exactly
`"Exhausted N attempts. Last error: <msg>"` and the queue dead-letter
operation runs. -/
theorem handle_failure_spec (maxAttempts : Nat) (job : EncodeJob)
    (error : String) (now : Nat) (s : QueueState) :
    (job.attemptCount < maxAttempts →
      handleFailure maxAttempts job error now s =
        (retryJobOp ((job.fail error now).retry now) s,
         FailureAction.retrying job.attemptCount maxAttempts,
         (job.fail error now).retry now) ∧
      ((job.fail error now).retry now).status = JobStatus.pending ∧
      ((job.fail error now).retry now).errorMessage = none ∧
      ((job.fail error now).retry now).progress = none) ∧
    (maxAttempts ≤ job.attemptCount →
      handleFailure maxAttempts job error now s =
        (deadLetterOp ((job.fail error now).deadLetter
            ("Exhausted " ++ toString maxAttempts ++ " attempts. Last error: " ++ error)
            now) s,
         FailureAction.deadLettered error,
         (job.fail error now).deadLetter
            ("Exhausted " ++ toString maxAttempts ++ " attempts. Last error: " ++ error)
            now) ∧
      ((job.fail error now).deadLetter
          ("Exhausted " ++ toString maxAttempts ++ " attempts. Last error: " ++ error)
          now).status = JobStatus.deadLetter ∧
      ((job.fail error now).deadLetter
          ("Exhausted " ++ toString maxAttempts ++ " attempts. Last error: " ++ error)
          now).errorMessage =
        some ("Exhausted " ++ toString maxAttempts ++ " attempts. Last error: " ++ error)) := by
  constructor
  · intro h
    refine ⟨?_, rfl, rfl, rfl⟩
    simp [handleFailure, EncodeJob.fail, EncodeJob.retry, h]
  · intro h
    have hn : ¬ job.attemptCount < maxAttempts := by omega
    refine ⟨?_, rfl, rfl⟩
    simp [handleFailure, EncodeJob.fail, EncodeJob.deadLetter, hn]

/-- A job that has already failed once (attempt count 1). -/
def jobC7 : EncodeJob :=
  { id := "job-7", inputPath := "/in/y.mkv", outputPath := "/out/y.mkv",
    profileName := "default", status := JobStatus.inProgress, attemptCount := 1,
    createdAt := 0, updatedAt := 3, startedAt := some 3, completedAt := none,
    errorMessage := none, progress := some 40 }

/-- C7, witness: both branches exercised at the sample job (retry under
`max_attempts = 3`, dead-letter under `max_attempts = 1`). -/
theorem handle_failure_spec_witness :
    (jobC7.attemptCount < 3 ∧
      ((jobC7.fail "boom" 9).retry 9).status = JobStatus.pending ∧
      ((jobC7.fail "boom" 9).retry 9).errorMessage = none ∧
      ((jobC7.fail "boom" 9).retry 9).progress = none) ∧
    ((1 : Nat) ≤ jobC7.attemptCount ∧
      ((jobC7.fail "boom" 9).deadLetter
          ("Exhausted " ++ toString 1 ++ " attempts. Last error: " ++ "boom") 9).errorMessage =
        some "Exhausted 1 attempts. Last error: boom") := by
  have h1 := (handle_failure_spec 3 jobC7 "boom" 9 emptyQueue).1 (by decide)
  have h2 := (handle_failure_spec 1 jobC7 "boom" 9 emptyQueue).2 (by decide)
  exact ⟨⟨by decide, h1.2.1, h1.2.2.1, h1.2.2.2⟩, ⟨by decide, h2.2.2⟩⟩

/-! ## C8 — retry_dead_letter -/

deriving instance DecidableEq for Except

/-- A concrete dead-lettered job used to exercise C8. -/
def jobC8 : EncodeJob :=
  { id := "j2", inputPath := "/in/z.mkv", outputPath := "/out/z.mkv",
    profileName := "default", status := JobStatus.deadLetter, attemptCount := 2,
    createdAt := 0, updatedAt := 6, startedAt := some 3, completedAt := none,
    errorMessage := some "Exhausted 2 attempts. Last error: boom", progress := none }

/-- C8, counterexample: the removal from the dead-letter list happens
before the record is consulted, so a `JobNotFound` failure does not leave
the queue state unchanged (first input: the id sits in the dead-letter
list but has no record); and when the id occurs twice in the dead-letter
list, a successful `retry_dead_letter` leaves one occurrence behind, so
`list_dead_letter()` still contains the id (second input). -/
theorem retry_dead_letter_counterexample :
    ((retryDeadLetter "j1" 0
        { queue := [], processing := [], deadLetter := ["j1"], jobs := [] }).2 =
      Except.error (QueueError.jobNotFound "j1") ∧
     (retryDeadLetter "j1" 0
        { queue := [], processing := [], deadLetter := ["j1"], jobs := [] }).1 ≠
      { queue := [], processing := [], deadLetter := ["j1"], jobs := [] }) ∧
    ((retryDeadLetter "j2" 7
        { queue := [], processing := [], deadLetter := ["j2", "j2"],
          jobs := [("j2", jobC8)] }).2 = Except.ok () ∧
     "j2" ∈ (retryDeadLetter "j2" 7
        { queue := [], processing := [], deadLetter := ["j2", "j2"],
          jobs := [("j2", jobC8)] }).1.deadLetter ∧
     (listDeadLetter (retryDeadLetter "j2" 7
        { queue := [], processing := [], deadLetter := ["j2", "j2"],
          jobs := [("j2", jobC8)] }).1).length = 1) := by
  exact ⟨⟨by decide, by decide⟩, ⟨by decide, by decide, by decide⟩⟩

/-- C8 (amended): `retry_dead_letter(id)` removes one occurrence of `id`
from the dead-letter list on both paths.  If the job record exists, it is
reset to pending and `id` is appended to the pending list, so afterwards
`list_pending()` contains the job and — provided `id` occurred at most
once in the dead-letter list — `list_dead_letter()`'s id list no longer
holds `id`.  If the record is missing it fails with `JobNotFound`,
leaving the pending list, processing set and job records unchanged, but
the dead-letter removal persists. -/
theorem retry_dead_letter_spec (s : QueueState) (jobId : String) (now : Nat) :
    (∀ j, getJob s jobId = some j →
      (retryDeadLetter jobId now s).2 = Except.ok () ∧
      (retryDeadLetter jobId now s).1.deadLetter = lremOne s.deadLetter jobId ∧
      (retryDeadLetter jobId now s).1.queue = rpush s.queue jobId ∧
      jobId ∈ (retryDeadLetter jobId now s).1.queue ∧
      getJob (retryDeadLetter jobId now s).1 j.id = some (j.retry now) ∧
      (j.retry now).status = JobStatus.pending ∧
      (j.id = jobId → (j.retry now) ∈ listQueue (retryDeadLetter jobId now s).1) ∧
      (s.deadLetter.count jobId ≤ 1 →
        jobId ∉ (retryDeadLetter jobId now s).1.deadLetter)) ∧
    (getJob s jobId = none →
      (retryDeadLetter jobId now s).2 =
        Except.error (QueueError.jobNotFound jobId) ∧
      (retryDeadLetter jobId now s).1.deadLetter = lremOne s.deadLetter jobId ∧
      (retryDeadLetter jobId now s).1.queue = s.queue ∧
      (retryDeadLetter jobId now s).1.processing = s.processing ∧
      (retryDeadLetter jobId now s).1.jobs = s.jobs) := by
  constructor
  · intro j hj
    have hj' : jobsGet s.jobs jobId = some j := hj
    have hid : (j.retry now).id = j.id := rfl
    refine ⟨?_, ?_, ?_, ?_, ?_, rfl, ?_, ?_⟩
    · simp [retryDeadLetter, getJob, hj']
    · simp [retryDeadLetter, getJob, hj', updateJob]
    · simp [retryDeadLetter, getJob, hj', updateJob]
    · simp [retryDeadLetter, getJob, hj', updateJob, rpush]
    · simp only [retryDeadLetter, getJob, hj', updateJob]
      simpa [hid] using
        jobsGet_jobsSet_same s.jobs (j.retry now).id (j.retry now)
    · intro hkey
      refine List.mem_filterMap.mpr ⟨jobId, ?_, ?_⟩
      · simp [retryDeadLetter, getJob, hj', updateJob, rpush]
      · simp only [retryDeadLetter, getJob, hj', updateJob]
        rw [← hkey]
        simpa [hid] using
          jobsGet_jobsSet_same s.jobs (j.retry now).id (j.retry now)
    · intro hcount hmem
      have hmem' : jobId ∈ lremOne s.deadLetter jobId := by
        simpa [retryDeadLetter, getJob, hj', updateJob] using hmem
      have hcz : (s.deadLetter.erase jobId).count jobId = 0 := by
        have := List.count_erase_self jobId s.deadLetter
        omega
      have : jobId ∉ s.deadLetter.erase jobId := by
        intro hm
        have := List.count_pos_iff.mpr hm
        omega
      exact this (by simpa [lremOne] using hmem')
  · intro hj
    have hj' : jobsGet s.jobs jobId = none := hj
    exact ⟨by simp [retryDeadLetter, getJob, hj'],
           by simp [retryDeadLetter, getJob, hj'],
           by simp [retryDeadLetter, getJob, hj'],
           by simp [retryDeadLetter, getJob, hj'],
           by simp [retryDeadLetter, getJob, hj']⟩

/-- C8 (amended), witness at a one-element dead-letter list holding the
record for `"j2"`. -/
theorem retry_dead_letter_spec_witness :
    (getJob { queue := [], processing := [], deadLetter := ["j2"],
              jobs := [("j2", jobC8)] } "j2" = some jobC8 ∧
     (["j2"].count "j2" ≤ 1)) ∧
    ((retryDeadLetter "j2" 7
        { queue := [], processing := [], deadLetter := ["j2"],
          jobs := [("j2", jobC8)] }).2 = Except.ok () ∧
     "j2" ∈ (retryDeadLetter "j2" 7
        { queue := [], processing := [], deadLetter := ["j2"],
          jobs := [("j2", jobC8)] }).1.queue ∧
     "j2" ∉ (retryDeadLetter "j2" 7
        { queue := [], processing := [], deadLetter := ["j2"],
          jobs := [("j2", jobC8)] }).1.deadLetter) := by
  have h := (retry_dead_letter_spec
    { queue := [], processing := [], deadLetter := ["j2"], jobs := [("j2", jobC8)] }
    "j2" 7).1 jobC8 (by decide)
  exact ⟨⟨by decide, by decide⟩, h.1, h.2.2.2.1, h.2.2.2.2.2.2.2 (by decide)⟩

/-! ## C10 — mkvmerge exit-code handling -/

/-- C10: `mux` succeeds exactly when the mkvmerge exit code is 0 or 1
(warnings tolerated); in every other case — exit code 2 or greater, or no
exit code available — it returns `MkvmergeFailed` (carrying
`code().unwrap_or(-1)` and the stderr tail). -/
theorem mux_exit_code_spec (c : Option Nat) (stderrTail : String) :
    (muxExitOutcome c stderrTail = Except.ok () ↔ (c = some 0 ∨ c = some 1)) ∧
    (muxExitOutcome c stderrTail = Except.ok () ∨
      muxExitOutcome c stderrTail =
        Except.error
          (EncoderError.mkvmergeFailed ((c.map Int.ofNat).getD (-1)) stderrTail)) := by
  cases c with
  | none => simp [muxExitOutcome]
  | some n =>
      by_cases h : 2 ≤ n
      · constructor
        · simp only [muxExitOutcome, Option.getD_some]
          rw [if_pos h]
          constructor
          · intro hcontr; cases hcontr
          · rintro (h0 | h0) <;> simp_all
        · right
          simp [muxExitOutcome, h]
      · have hn : n = 0 ∨ n = 1 := by omega
        constructor
        · simp only [muxExitOutcome, Option.getD_some]
          rw [if_neg h]
          rcases hn with h0 | h0 <;> simp [h0]
        · left
          simp [muxExitOutcome, h]

/-! ## C9 — HDR classification -/

/-- C9: on a probed video stream, the HDR classification yields `HDR10`
for transfer `smpte2084`, `HLG` for `arib-std-b67`, and — only when a
transfer tag is present with some other value — `Dolby Vision` exactly
when a side-data entry's type contains `"Dolby Vision"`; in every
remaining case it yields none, in particular whenever the stream has no
color-transfer tag, side data notwithstanding. -/
theorem detect_hdr_format_spec (s : ProbedVideoJson) :
    (s.colorTransfer = some "smpte2084" → detectHdrFormat s = some "HDR10") ∧
    (s.colorTransfer = some "arib-std-b67" → detectHdrFormat s = some "HLG") ∧
    (∀ t, s.colorTransfer = some t → t ≠ "smpte2084" → t ≠ "arib-std-b67" →
      (detectHdrFormat s = some "Dolby Vision" ↔
        s.sideDataTypes.any (fun d => strContainsB d "Dolby Vision") = true) ∧
      (s.sideDataTypes.any (fun d => strContainsB d "Dolby Vision") = false →
        detectHdrFormat s = none)) ∧
    (s.colorTransfer = none → detectHdrFormat s = none) := by
  refine ⟨?_, ?_, ?_, ?_⟩
  · intro h; simp [detectHdrFormat, h]
  · intro h; simp [detectHdrFormat, h]
  · intro t ht h1 h2
    constructor
    · by_cases hd : s.sideDataTypes.any (fun d => strContainsB d "Dolby Vision") = true
      · simp [detectHdrFormat, ht, h1, h2, hd]
      · simp [detectHdrFormat, ht, h1, h2, hd]
    · intro hd
      simp [detectHdrFormat, ht, h1, h2, hd]
  · intro h; simp [detectHdrFormat, h]

/-- C9, witness: an HDR10 stream, and a Dolby Vision stream whose
transfer tag is some third value. -/
theorem detect_hdr_format_spec_witness :
    (detectHdrFormat { colorTransfer := some "smpte2084",
                       sideDataTypes := [] } = some "HDR10") ∧
    (detectHdrFormat { colorTransfer := some "bt709",
                       sideDataTypes := ["Dolby Vision RPU Data"] } =
      some "Dolby Vision") := by
  constructor
  · exact (detect_hdr_format_spec
      { colorTransfer := some "smpte2084", sideDataTypes := [] }).1 rfl
  · exact ((detect_hdr_format_spec
      { colorTransfer := some "bt709",
        sideDataTypes := ["Dolby Vision RPU Data"] }).2.2.1 "bt709" rfl
        (by decide) (by decide)).1.mpr (by decide)

/-! ## C5 — subtitle include/exclude cascade -/

/-- A forced, hearing-impaired, text-based English subtitle stream. -/
def subStreamC5 : SubtitleStream :=
  { index := 3, codec := "subrip", language := some "eng", title := none,
    isDefault := false, isForced := true, isHearingImpaired := true,
    isImageBased := false }

/-- Track config for English: forced tracks in, SDH tracks out. -/
def subConfigC5 : SubtitleConfig :=
  { tracks := [{ language := "eng", includeForced := true, includeFull := true,
                 includeSdh := false, burnIn := false }],
    imageSubs := ImageSubsMode.copy, fallback := TrackFallback.exclude }

/-- C5, counterexample: a stream that is both forced and hearing-impaired
with `include_forced = true` and `include_sdh = false` is *not* excluded —
the forced check wins and the stream is copied — contrary to the claim's
reading that the SDH check would exclude it. -/
theorem subtitle_forced_sdh_counterexample :
    subStreamC5.isForced = true ∧
    subStreamC5.isHearingImpaired = true ∧
    (subConfigC5.tracks.head?.map (fun tc => tc.includeForced)) = some true ∧
    (subConfigC5.tracks.head?.map (fun tc => tc.includeSdh)) = some false ∧
    (determineSubtitleAction subStreamC5 subConfigC5).action = SubtitleTrackAction.copy ∧
    SubtitleTrackAction.copy ≠ SubtitleTrackAction.exclude := by
  exact ⟨rfl, rfl, rfl, rfl, by decide, by decide⟩

/-- C5 (amended): for a subtitle stream whose language matches a
track-config entry, the checks short-circuit on the first applicable
disposition: a forced stream is excluded iff `include_forced = false`
(its SDH flag is never consulted); a non-forced hearing-impaired stream is
excluded iff `include_sdh = false`; a stream that is neither is excluded
iff `include_full = false`.  In particular a forced, hearing-impaired,
text-based stream with `include_forced = true` is copied even when
`include_sdh = false`. -/
theorem subtitle_include_cascade (stream : SubtitleStream)
    (config : SubtitleConfig) (lang : String) (tc : SubtitleTrackConfig)
    (hlang : stream.language = some lang)
    (htc : config.tracks.find? (fun t => t.language = lang) = some tc) :
    (stream.isForced = true → tc.includeForced = false →
      (determineSubtitleAction stream config).action = SubtitleTrackAction.exclude) ∧
    (stream.isForced = false → stream.isHearingImpaired = true →
      tc.includeSdh = false →
      (determineSubtitleAction stream config).action = SubtitleTrackAction.exclude) ∧
    (stream.isForced = false → stream.isHearingImpaired = false →
      tc.includeFull = false →
      (determineSubtitleAction stream config).action = SubtitleTrackAction.exclude) ∧
    (stream.isForced = true → tc.includeForced = true →
      stream.isImageBased = false →
      (determineSubtitleAction stream config).action = SubtitleTrackAction.copy) := by
  refine ⟨?_, ?_, ?_, ?_⟩
  · intro hf hi
    simp [determineSubtitleAction, hlang, htc, shouldIncludeTrack, hf, hi]
  · intro hf hh hi
    simp [determineSubtitleAction, hlang, htc, shouldIncludeTrack, hf, hh, hi]
  · intro hf hh hi
    simp [determineSubtitleAction, hlang, htc, shouldIncludeTrack, hf, hh, hi]
  · intro hf hi hb
    simp [determineSubtitleAction, hlang, htc, shouldIncludeTrack, hf, hi, hb]

/-- C5 (amended), witness at the forced+SDH sample stream. -/
theorem subtitle_include_cascade_witness :
    (subStreamC5.language = some "eng" ∧
     subConfigC5.tracks.find? (fun t => t.language = "eng") =
       some { language := "eng", includeForced := true, includeFull := true,
              includeSdh := false, burnIn := false }) ∧
    (determineSubtitleAction subStreamC5 subConfigC5).action = SubtitleTrackAction.copy := by
  refine ⟨⟨rfl, by decide⟩, ?_⟩
  exact (subtitle_include_cascade subStreamC5 subConfigC5 "eng"
    { language := "eng", includeForced := true, includeFull := true,
      includeSdh := false, burnIn := false } rfl (by decide)).2.2.2 rfl rfl rfl

/-! ## C4 — at most one burn-in; fate of the others -/

/-- First image-based forced English subtitle stream. -/
def subStreamC4a : SubtitleStream :=
  { index := 2, codec := "hdmv_pgs_subtitle", language := some "eng",
    title := none, isDefault := false, isForced := true,
    isHearingImpaired := false, isImageBased := true }

/-- Second image-based forced English subtitle stream. -/
def subStreamC4b : SubtitleStream :=
  { index := 3, codec := "hdmv_pgs_subtitle", language := some "eng",
    title := none, isDefault := false, isForced := true,
    isHearingImpaired := false, isImageBased := true }

/-- Track config for English with burn-in requested. -/
def subConfigC4 : SubtitleConfig :=
  { tracks := [{ language := "eng", includeForced := true, includeFull := true,
                 includeSdh := false, burnIn := true }],
    imageSubs := ImageSubsMode.copy, fallback := TrackFallback.exclude }

/-- C4, counterexample (the spec's scenario 5): two image-based forced
English subs under `{language: eng, include_forced: true, burn_in: true}`
both decide `burn_in`; the worker burns the first, but the second is not
downgraded to `copy` — `mkvmerge::mux` filters out *every* burn-in-flagged
sidecar, so the mux receives no subtitle input at all and the second
stream is absent from the final output. -/
theorem burn_in_downgrade_counterexample :
    (processSubtitleStreams [subStreamC4a, subStreamC4b] subConfigC4).map
        (fun d => d.action) =
      [SubtitleTrackAction.burnIn, SubtitleTrackAction.burnIn] ∧
    (extractSubtitles
        (processSubtitleStreams [subStreamC4a, subStreamC4b] subConfigC4)).length = 2 ∧
    (extractSubtitles
        (processSubtitleStreams [subStreamC4a, subStreamC4b] subConfigC4)).all
        (fun e => e.shouldBurnIn) = true ∧
    (burnInSub (extractSubtitles
        (processSubtitleStreams [subStreamC4a, subStreamC4b] subConfigC4))).isSome = true ∧
    muxSubtitleInputs (extractSubtitles
        (processSubtitleStreams [subStreamC4a, subStreamC4b] subConfigC4)) = [] := by
  exact ⟨by decide, by decide, by decide, by decide, by decide⟩

/-- C4 (amended): at most one burn-in is consumed — the first
burn-in-flagged sidecar in stream order is the one the worker burns in —
and every additional burn-in decision is dropped from the container mux
entirely (it is neither burned in nor copied), while every non-burn-in
sidecar is passed to the mux. -/
theorem burn_in_first_wins_rest_dropped (decisions : List SubtitleDecision)
    (pre : List ExtractedSubtitle) (e x : ExtractedSubtitle)
    (post : List ExtractedSubtitle)
    (hex : extractSubtitles decisions = pre ++ e :: post)
    (hpre : ∀ y ∈ pre, y.shouldBurnIn = false)
    (he : e.shouldBurnIn = true)
    (hx : x ∈ extractSubtitles decisions) :
    burnInSub (extractSubtitles decisions) = some e ∧
    (x.shouldBurnIn = true →
      x ∉ muxSubtitleInputs (extractSubtitles decisions)) ∧
    (x.shouldBurnIn = false →
      x ∈ muxSubtitleInputs (extractSubtitles decisions)) := by
  refine ⟨?_, ?_, ?_⟩
  · rw [burnInSub, hex, List.find?_append]
    have hnone : pre.find? (fun s => s.shouldBurnIn) = none :=
      List.find?_eq_none.mpr (fun y hy => by simp [hpre y hy])
    rw [hnone]
    simp [List.find?_cons, he]
  · intro hxt hmem
    have := (List.mem_filter.mp hmem).2
    simp [hxt] at this
  · intro hxf
    exact List.mem_filter.mpr ⟨hx, by simp [hxf]⟩

/-- A text-based copy-decision stream used in the C4 witness. -/
def subStreamC4c : SubtitleStream :=
  { index := 1, codec := "subrip", language := some "eng", title := none,
    isDefault := false, isForced := false, isHearingImpaired := false,
    isImageBased := false }

/-- A decision list with one copy and two burn-in decisions. -/
def decisionsC4 : List SubtitleDecision :=
  [{ stream := subStreamC4c, action := SubtitleTrackAction.copy },
   { stream := subStreamC4a, action := SubtitleTrackAction.burnIn },
   { stream := subStreamC4b, action := SubtitleTrackAction.burnIn }]

/-- The extracted sidecar of the copy decision. -/
def extractedC4c : ExtractedSubtitle :=
  { path := "sub_1_eng.srt", streamIndex := 1, language := some "eng",
    isForced := false, isDefault := false, shouldBurnIn := false }

/-- The extracted sidecar of the first burn-in decision. -/
def extractedC4a : ExtractedSubtitle :=
  { path := "sub_2_eng.sup", streamIndex := 2, language := some "eng",
    isForced := true, isDefault := false, shouldBurnIn := true }

/-- The extracted sidecar of the second burn-in decision. -/
def extractedC4b : ExtractedSubtitle :=
  { path := "sub_3_eng.sup", streamIndex := 3, language := some "eng",
    isForced := true, isDefault := false, shouldBurnIn := true }

/-- C4 (amended), witness at the three-decision sample. -/
theorem burn_in_first_wins_rest_dropped_witness :
    (extractSubtitles decisionsC4 = [extractedC4c] ++ extractedC4a :: [extractedC4b] ∧
     extractedC4a.shouldBurnIn = true) ∧
    (burnInSub (extractSubtitles decisionsC4) = some extractedC4a ∧
     extractedC4c ∈ muxSubtitleInputs (extractSubtitles decisionsC4)) := by
  have h := burn_in_first_wins_rest_dropped decisionsC4 [extractedC4c]
    extractedC4a extractedC4c [extractedC4b] (by decide) (by decide) (by decide)
    (by decide)
  exact ⟨⟨by decide, by decide⟩, h.1, h.2.2 (by decide)⟩

/-! ## C6 — stability check -/

/-- In an association list with duplicate-free keys, a key determines its
value. -/
theorem pair_mem_unique_of_nodup_keys {β : Type} {l : List (String × β)}
    (hnd : (l.map Prod.fst).Nodup) {p : String} {t t0 : β}
    (h1 : (p, t) ∈ l) (h2 : (p, t0) ∈ l) : t = t0 := by
  induction l with
  | nil => cases h1
  | cons a rest ih =>
      have hnd' : a.1 ∉ rest.map Prod.fst ∧ (rest.map Prod.fst).Nodup := by
        simpa [List.nodup_cons] using hnd
      rcases List.mem_cons.mp h1 with he1 | hr1
      · rcases List.mem_cons.mp h2 with he2 | hr2
        · rw [← he1] at he2; exact (Prod.mk.injEq .. ▸ he2).2.symm
        · exfalso
          apply hnd'.1
          have : a.1 = p := by rw [← he1]
          rw [this]
          exact List.mem_map.mpr ⟨(p, t0), hr2, rfl⟩
      · rcases List.mem_cons.mp h2 with he2 | hr2
        · exfalso
          apply hnd'.1
          have : a.1 = p := by rw [← he2]
          rw [this]
          exact List.mem_map.mpr ⟨(p, t), hr1, rfl⟩
        · exact ih hnd'.2 hr1 hr2

/-- When `check_all` steps one entry whose stat succeeded, the ready flag
is set exactly when the size matches the last observation, is positive,
and the (possibly just-started) stable window reaches the duration. -/
theorem checkOne_emit_iff (dur now s : Nat) (t : TrackedFile) :
    ((checkOne dur now s t).2 = true) ↔
      (s = t.lastSize ∧ 0 < s ∧ dur ≤ now - t.stableSince.getD now) := by
  simp only [checkOne]
  split
  next hcond =>
    simp only [Bool.and_eq_true, decide_eq_true_eq] at hcond
    obtain ⟨h1, h2⟩ := hcond
    subst h1
    simp [h2]
  next hcond =>
    simp only [Bool.and_eq_true, decide_eq_true_eq, not_and] at hcond
    constructor
    · intro h; cases h
    · rintro ⟨ha, hb, _⟩; exact absurd hb (hcond ha)

/-- The stepped entry of `check_all` when the stat failed or the size
changed or was zero. -/
theorem checkOne_reset (dur now s : Nat) (t : TrackedFile)
    (h : s ≠ t.lastSize ∨ s = 0) :
    checkOne dur now s t = ({ t with lastSize := s, stableSince := none }, false) := by
  rcases h with h | h
  · simp [checkOne, h]
  · simp [checkOne, h]

/-- The step function never changes an entry's key. -/
theorem stepEntry_fst (dur now : Nat) (sz : String → Option Nat)
    (e : String × TrackedFile) : (stepEntry dur now sz e).1 = e.1 := by
  cases h : sz e.1 <;> simp [stepEntry, h]

/-- The ready-sink selector produces a path iff the entry's flag is set. -/
theorem emit_select_eq_some {e : String × TrackedFile × Bool} {p : String} :
    ((if e.2.2 then some e.1 else none) = some p) ↔ (e.2.2 = true ∧ e.1 = p) := by
  by_cases h : e.2.2 <;> simp [h]

/-- The retained-map selector produces an entry iff the flag is unset. -/
theorem keep_select_eq_some {e : String × TrackedFile × Bool} {p : String}
    {t1 : TrackedFile} :
    ((if e.2.2 then none else some (e.1, e.2.1)) = some (p, t1)) ↔
      (e.2.2 = false ∧ e.1 = p ∧ e.2.1 = t1) := by
  by_cases h : e.2.2 <;> simp [h]

/-- Membership in the emitted paths of `check_all`. -/
theorem mem_checkAll_emitted (dur now : Nat) (sz : String → Option Nat)
    (tracked : List (String × TrackedFile)) (p : String) :
    p ∈ (checkAll dur now sz tracked).2 ↔
      ∃ q t0, (q, t0) ∈ tracked ∧ q = p ∧
        (stepEntry dur now sz (q, t0)).2.2 = true := by
  simp only [checkAll, List.mem_filterMap, List.mem_map]
  constructor
  · rintro ⟨e, ⟨⟨q, t0⟩, hqt, hfe⟩, hge⟩
    subst hfe
    obtain ⟨hflag, hq⟩ := emit_select_eq_some.mp hge
    exact ⟨q, t0, hqt, by rw [← hq, stepEntry_fst], hflag⟩
  · rintro ⟨q, t0, hqt, hq, hflag⟩
    exact ⟨stepEntry dur now sz (q, t0), ⟨⟨q, t0⟩, hqt, rfl⟩,
      emit_select_eq_some.mpr ⟨hflag, by rw [stepEntry_fst]; exact hq⟩⟩

/-- Membership in the retained tracking map of `check_all`. -/
theorem mem_checkAll_kept (dur now : Nat) (sz : String → Option Nat)
    (tracked : List (String × TrackedFile)) (p : String) (t1 : TrackedFile) :
    (p, t1) ∈ (checkAll dur now sz tracked).1 ↔
      ∃ q t0, (q, t0) ∈ tracked ∧ q = p ∧
        (stepEntry dur now sz (q, t0)).2.2 = false ∧
        (stepEntry dur now sz (q, t0)).2.1 = t1 := by
  simp only [checkAll, List.mem_filterMap, List.mem_map]
  constructor
  · rintro ⟨e, ⟨⟨q, t0⟩, hqt, hfe⟩, hge⟩
    subst hfe
    obtain ⟨hflag, hq, ht⟩ := keep_select_eq_some.mp hge
    exact ⟨q, t0, hqt, by rw [← hq, stepEntry_fst], hflag, ht⟩
  · rintro ⟨q, t0, hqt, hq, hflag, ht⟩
    exact ⟨stepEntry dur now sz (q, t0), ⟨⟨q, t0⟩, hqt, rfl⟩,
      keep_select_eq_some.mpr ⟨hflag, by rw [stepEntry_fst]; exact hq, ht⟩⟩

/-- C6: on a `check_all` tick, a tracked file is emitted to the ready sink
iff its stat yields a size equal to the last observed size, that size is
positive, and the stable window (started at `stable_since`, or just now)
has lasted at least `stability_duration`; an emitted path is removed from
tracking; when the size differs or is zero the entry is retained with
`last_size` updated and `stable_since` cleared — hence a file observed at
size 0 is never emitted. -/
theorem stability_check_all_spec (dur now : Nat) (sizeOf : String → Option Nat)
    (tracked : List (String × TrackedFile)) (p : String) (t : TrackedFile)
    (hmem : (p, t) ∈ tracked)
    (hnd : (tracked.map Prod.fst).Nodup) :
    (p ∈ (checkAll dur now sizeOf tracked).2 ↔
      ∃ s, sizeOf p = some s ∧ s = t.lastSize ∧ 0 < s ∧
        dur ≤ now - t.stableSince.getD now) ∧
    (p ∈ (checkAll dur now sizeOf tracked).2 →
      ∀ t1, (p, t1) ∉ (checkAll dur now sizeOf tracked).1) ∧
    (∀ s, sizeOf p = some s → (s ≠ t.lastSize ∨ s = 0) →
      (p, { t with lastSize := s, stableSince := none }) ∈
        (checkAll dur now sizeOf tracked).1) ∧
    (sizeOf p = some 0 → p ∉ (checkAll dur now sizeOf tracked).2) := by
  have hemit : p ∈ (checkAll dur now sizeOf tracked).2 ↔
      ∃ s, sizeOf p = some s ∧ s = t.lastSize ∧ 0 < s ∧
        dur ≤ now - t.stableSince.getD now := by
    constructor
    · intro hp
      obtain ⟨q, t0, hqt, hq, hflag⟩ := (mem_checkAll_emitted dur now sizeOf tracked p).mp hp
      subst hq
      have ht0 : t0 = t := pair_mem_unique_of_nodup_keys hnd hqt hmem
      subst ht0
      rcases hsz : sizeOf q with _ | s
      · simp [stepEntry, hsz] at hflag
      · simp only [stepEntry, hsz] at hflag
        obtain ⟨ha, hb, hc⟩ := (checkOne_emit_iff dur now s t0).mp hflag
        exact ⟨s, rfl, ha, hb, hc⟩
    · rintro ⟨s, hs, ha, hb, hc⟩
      refine (mem_checkAll_emitted dur now sizeOf tracked p).mpr ⟨p, t, hmem, rfl, ?_⟩
      simp only [stepEntry, hs]
      exact (checkOne_emit_iff dur now s t).mpr ⟨ha, hb, hc⟩
  refine ⟨hemit, ?_, ?_, ?_⟩
  · intro hp t1 hmem1
    obtain ⟨s, hs, ha, hb, hc⟩ := hemit.mp hp
    obtain ⟨q, t0, hqt, hq, hflag, _⟩ :=
      (mem_checkAll_kept dur now sizeOf tracked p t1).mp hmem1
    subst hq
    have ht0 : t0 = t := pair_mem_unique_of_nodup_keys hnd hqt hmem
    subst ht0
    simp only [stepEntry, hs] at hflag
    have htrue := (checkOne_emit_iff dur now s _).mpr ⟨ha, hb, hc⟩
    rw [htrue] at hflag
    cases hflag
  · intro s hs hreset
    refine (mem_checkAll_kept dur now sizeOf tracked p _).mpr
      ⟨p, t, hmem, rfl, ?_, ?_⟩
    · simp only [stepEntry, hs]
      simp [checkOne_reset dur now s t hreset]
    · simp only [stepEntry, hs]
      simp [checkOne_reset dur now s t hreset]
  · intro h0 hp
    obtain ⟨s, hs, _, hb, _⟩ := hemit.mp hp
    rw [h0] at hs
    cases hs
    omega

/-- A concrete tracked entry stable since tick 0. -/
def trackedC6 : TrackedFile :=
  { lastSize := 100, stableSince := some 0, profileName := "default" }

/-- C6, witness: a file of stable positive size 100, tracked since tick 0,
observed at tick 40 with `stability_duration = 30`, is emitted. -/
theorem stability_check_all_spec_witness :
    (("a", trackedC6) ∈ [("a", trackedC6)] ∧
      ([("a", trackedC6)].map Prod.fst).Nodup) ∧
    "a" ∈ (checkAll 30 40 (fun q => if q = "a" then some 100 else none)
      [("a", trackedC6)]).2 := by
  refine ⟨⟨by decide, by simp⟩, ?_⟩
  exact (stability_check_all_spec 30 40
    (fun q => if q = "a" then some 100 else none) [("a", trackedC6)] "a" trackedC6
    (by decide) (by decide)).1.mpr ⟨100, by decide, by decide, by decide, by decide⟩

/-! ## C3 — per-language cap bound -/

/-- Unfolding `countKeptMatched` one decision at a time. -/
theorem countKeptMatched_cons (l : String) (d : AudioDecision)
    (ds : List AudioDecision) :
    countKeptMatched l (d :: ds) =
      (if (d.matchedRule.isSome && decide (d.stream.language = some l) &&
            !d.action.isExclude) = true
       then 1 else 0) + countKeptMatched l ds := by
  by_cases h : (d.matchedRule.isSome && decide (d.stream.language = some l) &&
      !d.action.isExclude) = true
  · simp [countKeptMatched, List.filter_cons, h, Nat.add_comm]
  · simp [countKeptMatched, List.filter_cons, h]

/-- Cap invariant of the audio loop: with the cap set to `maxT`, at most
`maxT - counts l` further matched decisions with language `l` can escape
exclusion. -/
theorem processAudioGo_cap_bound (config : AudioConfig) (maxT : Nat)
    (hcap : config.maxTracksPerLanguage = some maxT) (l : String) :
    ∀ (streams : List AudioStream) (counts : String → Nat),
      countKeptMatched l (processAudioGo config counts streams) ≤ maxT - counts l := by
  intro streams
  induction streams with
  | nil => intro counts; simp [processAudioGo, countKeptMatched]
  | cons stream rest ih =>
      intro counts
      rcases hmr : matchStreamToRule stream config with _ | pr
      · simp only [processAudioGo, hmr]
        rw [countKeptMatched_cons]
        simp [fallbackDecision]
        exact ih counts
      · obtain ⟨ruleIdx, rule⟩ := pr
        rcases hlang : stream.language with _ | lang
        · simp only [processAudioGo, hmr, hcap, hlang]
          rw [countKeptMatched_cons]
          have hfalse : decide ((createDecision stream rule ruleIdx).stream.language
              = some l) = false := by
            simp [createDecision, hlang]
          simp [hfalse]
          exact ih counts
        · simp only [processAudioGo, hmr, hcap, hlang]
          by_cases hle : maxT ≤ counts lang
          · rw [if_pos hle, countKeptMatched_cons]
            simp [AudioTrackAction.isExclude]
            exact ih counts
          · rw [if_neg hle, countKeptMatched_cons]
            by_cases hll : l = lang
            · subst hll
              have htail := ih (fun l0 => if l0 = l then counts l + 1 else counts l0)
              simp only [if_pos] at htail
              by_cases hcond : ((createDecision stream rule ruleIdx).matchedRule.isSome &&
                  decide ((createDecision stream rule ruleIdx).stream.language = some l) &&
                  !(createDecision stream rule ruleIdx).action.isExclude) = true
              · rw [if_pos hcond]; omega
              · rw [if_neg hcond]; omega
            · have hfalse : decide ((createDecision stream rule ruleIdx).stream.language
                  = some l) = false := by
                simp [createDecision, hlang]
                intro hcontr
                exact hll hcontr.symm
              have htail := ih (fun l0 => if l0 = lang then counts lang + 1 else counts l0)
              simp only [if_neg hll] at htail
              simp [hfalse]
              exact htail

/-- Two English streams that match no rule at all. -/
def audioStreamC3a : AudioStream :=
  { index := 1, codec := "aac", channels := 2, language := some "eng",
    title := none, isDefault := true, isCommentary := false,
    isVisualImpaired := false }

/-- A second English stream matching no rule. -/
def audioStreamC3b : AudioStream :=
  { index := 2, codec := "ac3", channels := 6, language := some "eng",
    title := none, isDefault := false, isCommentary := false,
    isVisualImpaired := false }

/-- Empty rule list, fallback include, cap 1. -/
def audioConfigC3 : AudioConfig :=
  { rules := [], fallback := TrackFallback.includeTracks,
    maxTracksPerLanguage := some 1 }

/-- C3, counterexample: with `max_tracks_per_language = 1`, an empty rule
list and fallback `include`, two English streams both fall through to the
fallback and both receive `passthrough` — two non-exclude decisions for
the same language, because the cap is only applied on the matched-rule
path. -/
theorem audio_cap_fallback_counterexample :
    audioConfigC3.maxTracksPerLanguage = some 1 ∧
    countNonExcludeLang "eng"
      (processAudioStreams [audioStreamC3a, audioStreamC3b] audioConfigC3) = 2 := by
  exact ⟨rfl, by decide⟩

/-- C3 (amended): with `max_tracks_per_language = 1`, the decision list
contains at most one non-exclude action per language *among decisions
produced by a matched rule*; streams handled by the fallback are not
subject to the cap. -/
theorem audio_cap_at_most_one_matched (streams : List AudioStream)
    (config : AudioConfig) (hcap : config.maxTracksPerLanguage = some 1)
    (l : String) :
    countKeptMatched l (processAudioStreams streams config) ≤ 1 := by
  have h := processAudioGo_cap_bound config 1 hcap l streams (fun _ => 0)
  simpa [processAudioStreams] using h

/-- Criteria with every field absent: matches any stream. -/
def catchAllCriteria : AudioMatchCriteria :=
  { language := none, languages := none, codec := none, codecs := none,
    channelsMin := none, channelsMax := none, flags := none,
    titleContains := none, index := none }

/-- A catch-all passthrough rule. -/
def ruleC3w : AudioRule :=
  { matchCriteria := catchAllCriteria, action := AudioAction.passthrough,
    passthroughCodecs := [], transcode := none, downmix := none }

/-- C3 (amended), witness config: one matching rule so the matched path is
exercised, cap 1. -/
def audioConfigC3w : AudioConfig :=
  { rules := [ruleC3w], fallback := TrackFallback.exclude,
    maxTracksPerLanguage := some 1 }

/-- C3 (amended), witness at two English streams matched by a catch-all
passthrough rule. -/
theorem audio_cap_at_most_one_matched_witness :
    audioConfigC3w.maxTracksPerLanguage = some 1 ∧
    countKeptMatched "eng"
      (processAudioStreams [audioStreamC3a, audioStreamC3b] audioConfigC3w) ≤ 1 := by
  exact ⟨rfl,
    audio_cap_at_most_one_matched [audioStreamC3a, audioStreamC3b]
      audioConfigC3w rfl "eng"⟩

/-! ## C2 — what the cap counter actually counts -/

/-- The audio loop processes an appended list by processing the first part
and continuing with the counter state it left behind. -/
theorem processAudioGo_append (config : AudioConfig) :
    ∀ (xs ys : List AudioStream) (counts : String → Nat),
      processAudioGo config counts (xs ++ ys) =
        processAudioGo config counts xs ++
          processAudioGo config (countsAfter config counts xs) ys := by
  intro xs
  induction xs with
  | nil => intro ys counts; simp [processAudioGo, countsAfter]
  | cons stream rest ih =>
      intro ys counts
      rcases hmr : matchStreamToRule stream config with _ | pr
      · simp only [List.cons_append, processAudioGo, hmr, countsAfter, List.append_eq]
        rw [ih]
      · obtain ⟨ruleIdx, rule⟩ := pr
        rcases hcap : config.maxTracksPerLanguage with _ | maxT
        · simp only [List.cons_append, processAudioGo, hmr, hcap, countsAfter,
            List.append_eq]
          rw [ih]
        · rcases hlang : stream.language with _ | lang
          · simp only [List.cons_append, processAudioGo, hmr, hcap, hlang,
              countsAfter, List.append_eq]
            rw [ih]
          · simp only [List.cons_append, processAudioGo, hmr, hcap, hlang,
              countsAfter, List.append_eq]
            by_cases hle : maxT ≤ counts lang
            · rw [if_pos hle, ih, if_pos hle, if_pos hle, List.cons_append]
            · rw [if_neg hle, ih, if_neg hle, if_neg hle, List.cons_append]

/-- The audio loop emits one decision per stream. -/
theorem processAudioGo_length (config : AudioConfig) :
    ∀ (streams : List AudioStream) (counts : String → Nat),
      (processAudioGo config counts streams).length = streams.length := by
  intro streams
  induction streams with
  | nil => intro counts; simp [processAudioGo]
  | cons stream rest ih =>
      intro counts
      rcases hmr : matchStreamToRule stream config with _ | pr
      · simp only [processAudioGo, hmr, List.length_cons]
        rw [ih]
      · obtain ⟨ruleIdx, rule⟩ := pr
        rcases hcap : config.maxTracksPerLanguage with _ | maxT
        · simp only [processAudioGo, hmr, hcap, List.length_cons]
          rw [ih]
        · rcases hlang : stream.language with _ | lang
          · simp only [processAudioGo, hmr, hcap, hlang, List.length_cons]
            rw [ih]
          · simp only [processAudioGo, hmr, hcap, hlang]
            by_cases hle : maxT ≤ counts lang
            · rw [if_pos hle]; simp only [List.length_cons]; rw [ih]
            · rw [if_neg hle]; simp only [List.length_cons]; rw [ih]

/-- The counter the source actually maintains: after processing `pre`, the
per-language counter for `lang` equals the number of *matched* streams of
that language seen so far (whatever their rule's action), clamped at the
cap. -/
theorem countsAfter_eq (config : AudioConfig) (maxT : Nat)
    (hcap : config.maxTracksPerLanguage = some maxT) (lang : String) :
    ∀ (pre : List AudioStream) (counts : String → Nat), counts lang ≤ maxT →
      countsAfter config counts pre lang =
        min maxT (counts lang +
          (pre.filter (fun s => decide (s.language = some lang) &&
            (matchStreamToRule s config).isSome)).length) := by
  intro pre
  induction pre with
  | nil => intro counts h; simp [countsAfter]; omega
  | cons s rest ih =>
      intro counts h
      rcases hmr : matchStreamToRule s config with _ | pr
      · have hfc : List.filter (fun s2 => decide (s2.language = some lang) &&
            (matchStreamToRule s2 config).isSome) (s :: rest) =
            List.filter (fun s2 => decide (s2.language = some lang) &&
              (matchStreamToRule s2 config).isSome) rest := by
          simp [List.filter_cons, hmr]
        simp only [countsAfter, hmr, hcap]
        rw [hfc]
        exact ih counts h
      · obtain ⟨ruleIdx, rule⟩ := pr
        rcases hlang : s.language with _ | l0
        · have hfc : List.filter (fun s2 => decide (s2.language = some lang) &&
              (matchStreamToRule s2 config).isSome) (s :: rest) =
              List.filter (fun s2 => decide (s2.language = some lang) &&
                (matchStreamToRule s2 config).isSome) rest := by
            simp [List.filter_cons, hlang]
          simp only [countsAfter, hmr, hcap, hlang]
          rw [hfc]
          exact ih counts h
        · by_cases hl0 : l0 = lang
          · have hfc : List.filter (fun s2 => decide (s2.language = some lang) &&
                (matchStreamToRule s2 config).isSome) (s :: rest) =
                s :: List.filter (fun s2 => decide (s2.language = some lang) &&
                  (matchStreamToRule s2 config).isSome) rest := by
              simp [List.filter_cons, hlang, hmr, hl0]
            simp only [countsAfter, hmr, hcap, hlang]
            rw [hfc, hl0]
            by_cases hle : maxT ≤ counts lang
            · rw [if_pos hle, ih counts h]
              simp only [List.length_cons]
              omega
            · rw [if_neg hle]
              have h1 : (fun l => if l = lang then counts lang + 1 else counts l)
                  lang = counts lang + 1 := by simp
              rw [ih (fun l => if l = lang then counts lang + 1 else counts l)
                (by simpa using Nat.lt_of_not_le hle)]
              simp only [List.length_cons]
              simp
              omega
          · have hfc : List.filter (fun s2 => decide (s2.language = some lang) &&
                (matchStreamToRule s2 config).isSome) (s :: rest) =
                List.filter (fun s2 => decide (s2.language = some lang) &&
                  (matchStreamToRule s2 config).isSome) rest := by
              simp [List.filter_cons, hlang, hl0]
            simp only [countsAfter, hmr, hcap, hlang]
            rw [hfc]
            by_cases hle : maxT ≤ counts l0
            · rw [if_pos hle]
              exact ih counts h
            · rw [if_neg hle]
              rw [ih (fun l => if l = l0 then counts l0 + 1 else counts l)
                (by simpa [Ne.symm hl0] using h)]
              simp [Ne.symm hl0]

/-- Criteria matching English commentary tracks. -/
def criteriaC2a : AudioMatchCriteria :=
  { language := none, languages := some ["eng"], codec := none, codecs := none,
    channelsMin := none, channelsMax := none,
    flags := some { commentary := some true, visualImpaired := none,
                    default := none },
    titleContains := none, index := none }

/-- Rule 0: exclude English commentary. -/
def ruleC2a : AudioRule :=
  { matchCriteria := criteriaC2a, action := AudioAction.exclude,
    passthroughCodecs := [], transcode := none, downmix := none }

/-- Criteria matching any English track. -/
def criteriaC2b : AudioMatchCriteria :=
  { language := none, languages := some ["eng"], codec := none, codecs := none,
    channelsMin := none, channelsMax := none, flags := none,
    titleContains := none, index := none }

/-- Rule 1: pass through English tracks. -/
def ruleC2b : AudioRule :=
  { matchCriteria := criteriaC2b, action := AudioAction.passthrough,
    passthroughCodecs := [], transcode := none, downmix := none }

/-- Config with the two English rules and cap 1. -/
def audioConfigC2 : AudioConfig :=
  { rules := [ruleC2a, ruleC2b], fallback := TrackFallback.exclude,
    maxTracksPerLanguage := some 1 }

/-- An English commentary stream (matches rule 0). -/
def audioStreamC2a : AudioStream :=
  { index := 1, codec := "ac3", channels := 2, language := some "eng",
    title := some "Commentary", isDefault := false, isCommentary := true,
    isVisualImpaired := false }

/-- A regular English stream (matches rule 1). -/
def audioStreamC2b : AudioStream :=
  { index := 2, codec := "ac3", channels := 2, language := some "eng",
    title := none, isDefault := true, isCommentary := false,
    isVisualImpaired := false }

/-- C2, counterexample: the source increments the per-language counter for
*every* matched stream below the cap, even when the matched rule's action
is `exclude`.  With cap 1, an exclude-matched commentary stream followed
by a passthrough-matched stream yields `[exclude, exclude]`, while the
claimed discipline (increment only for kept non-exclude decisions) yields
`[exclude, passthrough]`. -/
theorem audio_counter_increment_counterexample :
    processAudioStreams [audioStreamC2a, audioStreamC2b] audioConfigC2 ≠
      processAudioStreamsSpec [audioStreamC2a, audioStreamC2b] audioConfigC2 ∧
    (processAudioStreams [audioStreamC2a, audioStreamC2b] audioConfigC2).map
        (fun d => d.action) =
      [AudioTrackAction.exclude, AudioTrackAction.exclude] ∧
    (processAudioStreamsSpec [audioStreamC2a, audioStreamC2b] audioConfigC2).map
        (fun d => d.action) =
      [AudioTrackAction.exclude, AudioTrackAction.passthrough] := by
  exact ⟨by decide, by decide, by decide⟩

/-- C2 (amended): with a cap `maxT` set, a matched stream carrying a
language has its decision overridden to `exclude` exactly when at least
`maxT` *earlier* streams of the same language also matched some rule —
regardless of what action those earlier rules produced (exclude-matched
streams count toward the cap); below that threshold the rule's decision is
kept.  Equivalently, the counter is bumped for every matched stream with a
language while it is below the cap. -/
theorem audio_cap_override_iff (config : AudioConfig) (maxT : Nat)
    (hcap : config.maxTracksPerLanguage = some maxT)
    (pre post : List AudioStream) (stream : AudioStream)
    (ruleIdx : Nat) (rule : AudioRule) (lang : String)
    (hmr : matchStreamToRule stream config = some (ruleIdx, rule))
    (hlang : stream.language = some lang) :
    (processAudioStreams (pre ++ stream :: post) config)[pre.length]? =
      some (if maxT ≤ (pre.filter (fun s => decide (s.language = some lang) &&
              (matchStreamToRule s config).isSome)).length
            then { stream := stream, action := AudioTrackAction.exclude,
                   matchedRule := some ruleIdx }
            else createDecision stream rule ruleIdx) := by
  unfold processAudioStreams
  rw [processAudioGo_append]
  rw [List.getElem?_append_right
    (by rw [processAudioGo_length config pre (fun _ => 0)])]
  rw [processAudioGo_length config pre (fun _ => 0), Nat.sub_self]
  have hcl : countsAfter config (fun _ => 0) pre lang =
      min maxT ((pre.filter (fun s => decide (s.language = some lang) &&
        (matchStreamToRule s config).isSome)).length) := by
    have := countsAfter_eq config maxT hcap lang pre (fun _ => 0) (by simp)
    simpa using this
  by_cases hover : maxT ≤ (pre.filter (fun s => decide (s.language = some lang) &&
      (matchStreamToRule s config).isSome)).length
  · have hc : maxT ≤ countsAfter config (fun _ => 0) pre lang := by
      rw [hcl]; omega
    simp only [processAudioGo, hmr, hcap, hlang, if_pos hc, if_pos hover]
    simp
  · have hc : ¬ maxT ≤ countsAfter config (fun _ => 0) pre lang := by
      rw [hcl]; omega
    simp only [processAudioGo, hmr, hcap, hlang, if_neg hc, if_neg hover]
    simp

/-- C2 (amended), witness: the regular English stream is overridden to
`exclude` because the earlier commentary stream — though itself excluded
by its rule — already consumed the single English slot. -/
theorem audio_cap_override_iff_witness :
    (audioConfigC2.maxTracksPerLanguage = some 1 ∧
     matchStreamToRule audioStreamC2b audioConfigC2 = some (1, ruleC2b) ∧
     audioStreamC2b.language = some "eng") ∧
    (processAudioStreams ([audioStreamC2a] ++ audioStreamC2b :: [])
        audioConfigC2)[[audioStreamC2a].length]? =
      some { stream := audioStreamC2b, action := AudioTrackAction.exclude,
             matchedRule := some 1 } := by
  have h := audio_cap_override_iff audioConfigC2 1 rfl [audioStreamC2a] []
    audioStreamC2b 1 ruleC2b "eng" (by decide) rfl
  refine ⟨⟨rfl, by decide, rfl⟩, ?_⟩
  rw [h]
  decide

end EncodingPipeline
